import Mathlib

/-!
# babytorch: tensors, gradient contexts and differentiable operators

A shallow embedding of `src/babytorch/tensor.cpp` and
`src/babytorch/tensor_functions.cpp`.

* A `Tensor` owns a shaped buffer (`TensorData`), an optional gradient tensor
  (`grad`, a possibly-null owning pointer in the source) and a `History`
  (saved `Context`, the producing operator, the parent pointers).
* The element type is a parameter `α` (the source uses `double`); theorems that
  need arithmetic laws state them for an exact `α`.
* Every `Tensor` of the source carries the same `backend` member; here the
  backend is one `TensorBackend` value passed to each function that uses it.
* Functions taking `Context&` return the updated context next to their result.
* `ctx.saved_values[i]` on a missing index and `*grad` on a null gradient are
  undefined in the source; here they give `none`.
* `Tensor::backward` takes the engine it calls as a parameter. The engine
  `tensor_autodiff::backpropagate` and the application of an operator to graph
  nodes are not part of these two files; namespace `tensor_autodiff` models them
  from section 4.4 of the specification, over a heap of tensors addressed by
  position.
-/

namespace tensor

/-- Dimensions of a buffer (`Shape`). -/
abbrev Shape := List Nat

/-- Shaped numeric buffer (`TensorData`): flat storage plus its shape. -/
structure TensorData (α : Type) where
  storage : List α
  shape : Shape

/-- Identity of the operator whose `backward` a `History` points to. -/
inductive OpId where
  | Add | Neg | Inv | Relu | Sigmoid | Log | Exp | Mul | Lt | Eq | Is_close | Copy
  deriving DecidableEq, Repr

/-- Address of a tensor owned elsewhere (`Tensor*`). -/
abbrev Ptr := Nat

mutual
/-- Graph node: buffer, gradient slot and history. -/
inductive Tensor (α : Type) : Type where
  | mk (data : TensorData α) (grad : Option (Tensor α)) (history : History α) : Tensor α
/-- How a tensor was produced: saved context, operator, parent pointers. -/
inductive History (α : Type) : Type where
  | mk (ctx : Context α) (backward : Option OpId) (inputs : List Ptr) : History α
/-- Scratch record of one operator application: the values saved for backward. -/
inductive Context (α : Type) : Type where
  | mk (saved_values : List (Tensor α)) : Context α
end

variable {α : Type}

/-- Field `data` of a tensor. -/
def Tensor.data : Tensor α → TensorData α
  | .mk d _ _ => d

/-- Field `grad` of a tensor (`none` is the null pointer). -/
def Tensor.grad : Tensor α → Option (Tensor α)
  | .mk _ g _ => g

/-- Field `history` of a tensor. -/
def Tensor.history : Tensor α → History α
  | .mk _ _ h => h

/-- Field `ctx` of a history. -/
def History.ctx : History α → Context α
  | .mk c _ _ => c

/-- Field `backward` of a history. -/
def History.backward : History α → Option OpId
  | .mk _ b _ => b

/-- Field `inputs` of a history. -/
def History.inputs : History α → List Ptr
  | .mk _ _ i => i

/-- Field `saved_values` of a context. -/
def Context.saved_values : Context α → List (Tensor α)
  | .mk s => s

/-- Context as created for one operator invocation: nothing saved yet. -/
def Context.fresh : Context α := .mk []

/-- Modelled from the spec: `Context::save_for_backwards` (declared in the
absent `tensor_autodiff.hpp`) stores the given tensors so that they are
retrieved later in the same order by positional index. -/
def Context.save_for_backwards (ctx : Context α) (ts : List (Tensor α)) : Context α :=
  .mk (ctx.saved_values ++ ts)

/-- History of a tensor that no operator produced. -/
def History.leaf : History α := .mk Context.fresh none []

/-- Modelled from the spec: the constructor `Tensor(TensorData)` (declared in
the absent `tensor.hpp`) builds a leaf: the buffer is stored as given, there is
no producing operator, the parent list is empty, and the gradient slot is not
yet allocated. -/
def Tensor.ofData (d : TensorData α) : Tensor α := .mk d none History.leaf

/-- Modelled from the spec: a value-initialised `Tensor`, which is what fills
the slots of a `std::array<Tensor, 2>` that the initialiser list omits. -/
def Tensor.empty : Tensor α := Tensor.ofData ⟨[], []⟩

/-- Modelled from the spec: `utils::zeros(shape)` (absent `utils.hpp`) is the
buffer over `shape` filled with the additive identity. -/
def utils.zeros [Zero α] (shape : Shape) : List α := List.replicate shape.prod 0

/-- Source `Tensor::shape`, tensor.cpp:15. -/
def Tensor.shape (t : Tensor α) : Shape := t.data.shape

/-- Source `Tensor::zeros(Shape)`, tensor.cpp:19. -/
def Tensor.zeros [Zero α] (shape : Shape) : Tensor α :=
  Tensor.ofData (TensorData.mk (utils.zeros shape) shape)

/-- Source `Tensor::zeros() const`, tensor.cpp:23. -/
def Tensor.zeros_this [Zero α] (t : Tensor α) : Tensor α := Tensor.zeros t.shape

/-- Source `Tensor::parents`, tensor.cpp:31. -/
def Tensor.parents (t : Tensor α) : List Ptr := t.history.inputs

/-- Source `Tensor::is_leaf`, tensor.cpp:35. -/
def Tensor.is_leaf (t : Tensor α) : Bool := t.parents.isEmpty

/-- The backend capability (`TensorBackend`, absent `operators.hpp`): the
tensor-level kernels the operators call, taken as a parameter. -/
structure TensorBackend (α : Type) where
  add_zip : Tensor α → Tensor α → Tensor α
  mul_zip : Tensor α → Tensor α → Tensor α
  lt_zip : Tensor α → Tensor α → Tensor α
  eq_zip : Tensor α → Tensor α → Tensor α
  is_close_zip : Tensor α → Tensor α → Tensor α
  inv_back_zip : Tensor α → Tensor α → Tensor α
  relu_back_zip : Tensor α → Tensor α → Tensor α
  log_back_zip : Tensor α → Tensor α → Tensor α
  neg_map : Tensor α → Tensor α
  inv_map : Tensor α → Tensor α
  relu_map : Tensor α → Tensor α
  sigmoid_map : Tensor α → Tensor α
  log_map : Tensor α → Tensor α
  exp_map : Tensor α → Tensor α
  id_map : Tensor α → Tensor α

/-- Modelled from the spec: `Tensor::operator+=` (absent `tensor.hpp`) is
`grad := grad + delta`, element-wise addition via the backend capability. -/
def Tensor.iadd (B : TensorBackend α) (g delta : Tensor α) : Tensor α := B.add_zip g delta

/-- Source `Tensor::accumulate_grad`, tensor.cpp:39: `(*this->grad) += deriv`.
Returns the tensor after the call; a null `grad` cannot be dereferenced. -/
def Tensor.accumulate_grad (B : TensorBackend α) (t deriv : Tensor α) : Option (Tensor α) :=
  match t with
  | .mk data (some g) history => some (.mk data (some (Tensor.iadd B g deriv)) history)
  | .mk _ none _ => none

/-- Scalar kernels behind the element-wise backend. -/
structure ScalarOps (α : Type) where
  add : α → α → α
  mul : α → α → α
  lt : α → α → α
  eq : α → α → α
  is_close : α → α → α
  inv_back : α → α → α
  relu_back : α → α → α
  log_back : α → α → α
  neg : α → α
  inv : α → α
  relu : α → α
  sigmoid : α → α
  log : α → α
  exp : α → α
  id : α → α

/-- Modelled from the spec: a one-argument backend operation returns a new
tensor of the argument's shape holding `f` of each element. -/
def Tensor.map (f : α → α) (t : Tensor α) : Tensor α :=
  Tensor.ofData ⟨t.data.storage.map f, t.data.shape⟩

/-- Modelled from the spec: a two-argument backend operation takes two
same-shaped tensors and returns a new tensor holding `f` of each pair of
elements at the same position. -/
def Tensor.zip (f : α → α → α) (a b : Tensor α) : Tensor α :=
  Tensor.ofData ⟨List.zipWith f a.data.storage b.data.storage, a.data.shape⟩

/-- Modelled from the spec: the backend as the element-wise lifting of scalar
kernels (section 6 of the spec). -/
def elementwise (ops : ScalarOps α) : TensorBackend α where
  add_zip := Tensor.zip ops.add
  mul_zip := Tensor.zip ops.mul
  lt_zip := Tensor.zip ops.lt
  eq_zip := Tensor.zip ops.eq
  is_close_zip := Tensor.zip ops.is_close
  inv_back_zip := Tensor.zip ops.inv_back
  relu_back_zip := Tensor.zip ops.relu_back
  log_back_zip := Tensor.zip ops.log_back
  neg_map := Tensor.map ops.neg
  inv_map := Tensor.map ops.inv
  relu_map := Tensor.map ops.relu
  sigmoid_map := Tensor.map ops.sigmoid
  log_map := Tensor.map ops.log
  exp_map := Tensor.map ops.exp
  id_map := Tensor.map ops.id

/-- Modelled from the spec: the exact scalar kernels named in the operator
table (section 4.3): sum, product, negation, reciprocal, `max(0,x)`, logistic,
0/1 comparisons, `inv_backward` as the derivative of the reciprocal applied to
the gradient, `relu_backward` as the mask by the sign of the input,
`log_backward(x, d) = d / x`. The transcendental kernels and the tolerance
test are parameters. -/
def exactOps [LinearOrderedField α] (exp log : α → α) (is_close : α → α → α) : ScalarOps α where
  add a b := a + b
  mul a b := a * b
  lt a b := if a < b then 1 else 0
  eq a b := if a = b then 1 else 0
  is_close := is_close
  inv_back x d := -(1 / x ^ 2) * d
  relu_back x d := if 0 < x then d else 0
  log_back x d := d / x
  neg a := -a
  inv a := 1 / a
  relu a := if 0 < a then a else 0
  sigmoid a := 1 / (1 + exp (-a))
  log := log
  exp := exp
  id a := a

/-- Modelled from the spec: the initialiser-list constructor `Tensor({...})`
(declared in the absent `tensor.hpp`) builds a one-dimensional leaf holding the
listed values, as in the scenario `x = Tensor([2.0])`. -/
def Tensor.ofList (xs : List α) : Tensor α := Tensor.ofData ⟨xs, [xs.length]⟩

/-- Memory of the tensors a graph is made of: the tensor at address `p` is the
entry at position `p`. -/
abbrev Heap (α : Type) := List (Tensor α)

/-- Source `Tensor::backward`, tensor.cpp:56. The engine
`tensor_autodiff::backpropagate` is not part of these sources and is a
parameter; `this` is the address of the tensor in the heap the engine works on,
and the seed allocated by `new` is handed over as a value. -/
def Tensor.backward [One α] {ρ : Type} (backpropagate : Ptr → Tensor α → Heap α → ρ)
    (this : Ptr) (heap : Heap α) : ρ :=
  let deriv : Tensor α := Tensor.ofList [1]
  backpropagate this deriv heap

end tensor

namespace tensor_functions

open tensor

variable {α : Type}

/-- Source `Add::forward`, tensor_functions.cpp:10. -/
def Add.forward (B : TensorBackend α) (ctx : Context α) (self other : Tensor α) :
    Context α × Tensor α :=
  (ctx, B.add_zip self other)

/-- Source `Add::backward`, tensor_functions.cpp:14. -/
def Add.backward (_ctx : Context α) (d_out : Tensor α) : Tensor α × Tensor α :=
  (d_out, d_out)

/-- Source `Neg::forward`, tensor_functions.cpp:18. -/
def Neg.forward (B : TensorBackend α) (ctx : Context α) (self : Tensor α) :
    Context α × Tensor α :=
  (ctx.save_for_backwards [self], B.neg_map self)

/-- Source `Neg::backward`, tensor_functions.cpp:23. -/
def Neg.backward (B : TensorBackend α) (_ctx : Context α) (d_out : Tensor α) :
    Tensor α × Tensor α :=
  (B.neg_map d_out, Tensor.empty)

/-- Source `Inv::forward`, tensor_functions.cpp:27. -/
def Inv.forward (B : TensorBackend α) (ctx : Context α) (self : Tensor α) :
    Context α × Tensor α :=
  (ctx.save_for_backwards [self], B.inv_map self)

/-- Source `Inv::backward`, tensor_functions.cpp:32. -/
def Inv.backward (B : TensorBackend α) (ctx : Context α) (d_out : Tensor α) :
    Option (Tensor α × Tensor α) :=
  match ctx.saved_values[0]? with
  | some self => some (B.inv_back_zip self d_out, Tensor.empty)
  | none => none

/-- Source `Relu::forward`, tensor_functions.cpp:37. -/
def Relu.forward (B : TensorBackend α) (ctx : Context α) (self : Tensor α) :
    Context α × Tensor α :=
  (ctx.save_for_backwards [self], B.relu_map self)

/-- Source `Relu::backward`, tensor_functions.cpp:42. -/
def Relu.backward (B : TensorBackend α) (ctx : Context α) (d_out : Tensor α) :
    Option (Tensor α × Tensor α) :=
  match ctx.saved_values[0]? with
  | some self => some (B.relu_back_zip self d_out, Tensor.empty)
  | none => none

/-- Source `Sigmoid::forward`, tensor_functions.cpp:47. -/
def Sigmoid.forward (B : TensorBackend α) (ctx : Context α) (self : Tensor α) :
    Context α × Tensor α :=
  (ctx.save_for_backwards [self], B.sigmoid_map self)

/-- Source `Sigmoid::backward`, tensor_functions.cpp:52. -/
def Sigmoid.backward (B : TensorBackend α) (ctx : Context α) (d_out : Tensor α) :
    Option (Tensor α × Tensor α) :=
  match ctx.saved_values[0]? with
  | some self =>
    let sigmoid_self := B.sigmoid_map self
    let sigmoid_self_sq := B.mul_zip sigmoid_self sigmoid_self
    let exp_minus_self := B.exp_map (B.neg_map self)
    let out := B.mul_zip d_out (B.mul_zip exp_minus_self sigmoid_self_sq)
    some (out, Tensor.empty)
  | none => none

/-- Source `Log::forward`, tensor_functions.cpp:62. -/
def Log.forward (B : TensorBackend α) (ctx : Context α) (self : Tensor α) :
    Context α × Tensor α :=
  (ctx.save_for_backwards [self], B.log_map self)

/-- Source `Log::backward`, tensor_functions.cpp:67. -/
def Log.backward (B : TensorBackend α) (ctx : Context α) (d_out : Tensor α) :
    Option (Tensor α × Tensor α) :=
  match ctx.saved_values[0]? with
  | some self => some (B.log_back_zip self d_out, Tensor.empty)
  | none => none

/-- Source `Exp::forward`, tensor_functions.cpp:72. -/
def Exp.forward (B : TensorBackend α) (ctx : Context α) (self : Tensor α) :
    Context α × Tensor α :=
  (ctx.save_for_backwards [self], B.exp_map self)

/-- Source `Exp::backward`, tensor_functions.cpp:77. -/
def Exp.backward (B : TensorBackend α) (ctx : Context α) (d_out : Tensor α) :
    Option (Tensor α × Tensor α) :=
  match ctx.saved_values[0]? with
  | some self => some (B.mul_zip d_out (B.exp_map self), Tensor.empty)
  | none => none

/-- Source `Mul::forward`, tensor_functions.cpp:82. -/
def Mul.forward (B : TensorBackend α) (ctx : Context α) (self other : Tensor α) :
    Context α × Tensor α :=
  (ctx.save_for_backwards [self, other], B.mul_zip self other)

/-- Source `Mul::backward`, tensor_functions.cpp:87. -/
def Mul.backward (B : TensorBackend α) (ctx : Context α) (d_out : Tensor α) :
    Option (Tensor α × Tensor α) :=
  match ctx.saved_values[0]?, ctx.saved_values[1]? with
  | some self, some other => some (B.mul_zip other d_out, B.mul_zip self d_out)
  | _, _ => none

/-- Source `Lt::forward`, tensor_functions.cpp:94. -/
def Lt.forward (B : TensorBackend α) (ctx : Context α) (self other : Tensor α) :
    Context α × Tensor α :=
  (ctx, B.lt_zip self other)

/-- Source `Lt::backward`, tensor_functions.cpp:98. -/
def Lt.backward [Zero α] (_ctx : Context α) (d_out : Tensor α) : Tensor α × Tensor α :=
  let a := d_out.zeros_this
  let b := d_out.zeros_this
  (a, b)

/-- Source `Eq::forward`, tensor_functions.cpp:104. -/
def Eq.forward (B : TensorBackend α) (ctx : Context α) (self other : Tensor α) :
    Context α × Tensor α :=
  (ctx, B.eq_zip self other)

/-- Source `Eq::backward`, tensor_functions.cpp:108. -/
def Eq.backward [Zero α] (_ctx : Context α) (d_out : Tensor α) : Tensor α × Tensor α :=
  let a := d_out.zeros_this
  let b := d_out.zeros_this
  (a, b)

/-- Source `Is_close::forward`, tensor_functions.cpp:114. -/
def Is_close.forward (B : TensorBackend α) (ctx : Context α) (self other : Tensor α) :
    Context α × Tensor α :=
  (ctx.save_for_backwards [self, other], B.is_close_zip self other)

/-- Source `Copy::forward`, tensor_functions.cpp:121. -/
def Copy.forward (B : TensorBackend α) (ctx : Context α) (self : Tensor α) :
    Context α × Tensor α :=
  (ctx, B.id_map self)

/-- Source `Copy::backward`, tensor_functions.cpp:125. -/
def Copy.backward (_ctx : Context α) (d_out : Tensor α) : Tensor α × Tensor α :=
  (d_out, Tensor.empty)

/-- The elements of a `std::array<Tensor, 2>` returned by a `backward`. -/
def slots (r : Tensor α × Tensor α) : List (Tensor α) := [r.1, r.2]

/-- Modelled from the spec: applying `Mul` to the tensors at addresses `pa` and
`pb` runs forward on a fresh context and records the history edge (operator,
saved context, ordered parent list) on the new tensor, which is placed at the
next free address. -/
def Mul.apply (B : TensorBackend α) (heap : Heap α) (pa pb : Ptr) : Option (Heap α × Ptr) :=
  match heap[pa]?, heap[pb]? with
  | some a, some b =>
    let r := Mul.forward B Context.fresh a b
    let y : Tensor α := .mk r.2.data r.2.grad (.mk r.1 (some OpId.Mul) [pa, pb])
    some (heap ++ [y], heap.length)
  | _, _ => none

end tensor_functions

namespace tensor_autodiff

open tensor tensor_functions

variable {α : Type}

/-- Modelled from the spec: the `backward` stored in a history is the backward
of the operator that produced the tensor; `Is_close` has none. -/
def backward_of [Zero α] (B : TensorBackend α) :
    OpId → Context α → Tensor α → Option (Tensor α × Tensor α)
  | .Add, ctx, d => some (Add.backward ctx d)
  | .Neg, ctx, d => some (Neg.backward B ctx d)
  | .Inv, ctx, d => Inv.backward B ctx d
  | .Relu, ctx, d => Relu.backward B ctx d
  | .Sigmoid, ctx, d => Sigmoid.backward B ctx d
  | .Log, ctx, d => Log.backward B ctx d
  | .Exp, ctx, d => Exp.backward B ctx d
  | .Mul, ctx, d => Mul.backward B ctx d
  | .Lt, ctx, d => some (Lt.backward ctx d)
  | .Eq, ctx, d => some (Eq.backward ctx d)
  | .Is_close, _, _ => none
  | .Copy, ctx, d => some (Copy.backward ctx d)

/-- Modelled from the spec: ordering phase of the engine (section 4.4). A
depth-first walk along `parents()` that places a node in front of the order
once all its parents are placed, so that every node comes after all of its
consumers. `fuel` bounds the depth of the walk. -/
def visit (heap : Heap α) : Nat → Ptr → List Ptr → List Ptr
  | 0, _, order => order
  | fuel + 1, p, order =>
    if order.contains p then order
    else
      match heap[p]? with
      | none => order
      | some t => p :: t.parents.foldl (fun acc m => visit heap fuel m acc) order

/-- Modelled from the spec: the traversal order from `root`; a walk in an
acyclic heap is never deeper than the number of tensors. -/
def topological_order (heap : Heap α) (root : Ptr) : List Ptr :=
  visit heap (heap.length + 1) root []

/-- Gradient received so far by the tensor at address `p`, if any. -/
def pending_of (pending : List (Ptr × Tensor α)) (p : Ptr) : Option (Tensor α) :=
  match pending with
  | [] => none
  | (q, g) :: rest => if q = p then some g else pending_of rest p

/-- Modelled from the spec: add the gradient `g` to the pending total of the
tensor at address `p`. -/
def add_pending (B : TensorBackend α) (pending : List (Ptr × Tensor α)) (p : Ptr)
    (g : Tensor α) : List (Ptr × Tensor α) :=
  match pending with
  | [] => [(p, g)]
  | (q, h) :: rest =>
    if q = p then (q, B.add_zip h g) :: rest else (q, h) :: add_pending B rest p g

/-- State of a backward pass: the tensors, the pending gradient totals, and the
operator backwards invoked so far (address of the node, operator). -/
structure EngineState (α : Type) where
  heap : Heap α
  pending : List (Ptr × Tensor α)
  invoked : List (Ptr × OpId)

/-- Modelled from the spec: propagation at one node (section 4.4). A leaf
accumulates its received gradient into its `grad` slot; a non-leaf invokes its
operator's backward on its context and its received gradient and adds one
gradient per parent to that parent's pending total. -/
def propagate [Zero α] (B : TensorBackend α) (s : EngineState α) (p : Ptr) :
    Option (EngineState α) :=
  match s.heap[p]?, pending_of s.pending p with
  | none, _ => none
  | some _, none => some s
  | some t, some d =>
    if t.is_leaf then
      match t.accumulate_grad B d with
      | none => none
      | some t1 => some { s with heap := s.heap.set p t1 }
    else
      match t.history.backward with
      | none => none
      | some op =>
        match backward_of B op t.history.ctx d with
        | none => none
        | some grads =>
          some { s with
            pending := (t.parents.zip (slots grads)).foldl
              (fun acc qg => add_pending B acc qg.1 qg.2) s.pending
            invoked := s.invoked ++ [(p, op)] }

/-- Run `propagate` over the nodes of an order, stopping at the first failure. -/
def propagate_all [Zero α] (B : TensorBackend α) :
    List Ptr → EngineState α → Option (EngineState α)
  | [], s => some s
  | p :: rest, s =>
    match propagate B s p with
    | none => none
    | some s1 => propagate_all B rest s1

/-- Modelled from the spec: the Backward-Pass Engine
`tensor_autodiff::backpropagate(root, deriv)` (section 4.4): order the nodes
reachable from the root, start with the root holding the seed, and propagate
node by node. Returns the tensors after the pass and the operator backwards it
invoked. -/
def backpropagate [Zero α] (B : TensorBackend α) (root : Ptr) (deriv : Tensor α)
    (heap : Heap α) : Option (Heap α × List (Ptr × OpId)) :=
  match propagate_all B (topological_order heap root) ⟨heap, [(root, deriv)], []⟩ with
  | none => none
  | some s => some (s.heap, s.invoked)

end tensor_autodiff

namespace babytorch

open tensor tensor_functions tensor_autodiff

variable {α : Type}

/-! ## Specification predicates -/

/-- The tensor `g` has shape `s`, one entry per position of `s`, and every
entry is zero. -/
def IsZeroOfShape [Zero α] (g : Tensor α) (s : Shape) : Prop :=
  g.shape = s ∧ g.data.storage.length = s.prod ∧ ∀ v ∈ g.data.storage, v = 0

/-- The forward output `out` is `f` of each element of `x`, and the gradient slot
`g` has one entry per entry of `d`, the entry at each position where `x` lies in
`dom` being `d * f'` for a derivative `f'` of `f` at that element of `x`. -/
def IsGradientOf (f : ℝ → ℝ) (dom : ℝ → Prop) (x d out : Tensor ℝ)
    (g : Option (Tensor ℝ)) : Prop :=
  out.data.storage = x.data.storage.map f
  ∧ ∃ g', g = some g'
    ∧ g'.data.storage.length = d.data.storage.length
    ∧ ∀ (i : Nat) (xi di : ℝ),
        x.data.storage[i]? = some xi → d.data.storage[i]? = some di → dom xi →
        ∃ f', HasDerivAt f f' xi ∧ g'.data.storage[i]? = some (di * f')

/-- The three backward results are present, and the slot `slot` of `r` is the
backend sum of the same slot of `r1` and of `r2`. -/
def IsSlotSum (B : TensorBackend α) (slot : Tensor α × Tensor α → Tensor α)
    (r r1 r2 : Option (Tensor α × Tensor α)) : Prop :=
  ∃ s s1 s2, r = some s ∧ r1 = some s1 ∧ r2 = some s2 ∧ slot s = B.add_zip (slot s1) (slot s2)

/-! ## Sample values -/

/-- Exact kernels over the rationals; the transcendental kernels and the
tolerance test, which play no part where this is used, are stand-ins. -/
def ratOps : ScalarOps ℚ := exactOps (fun v => v) (fun v => v) (fun _ _ => 0)

/-- One-dimensional rational tensor built directly from its entries. -/
def vec (xs : List ℚ) : Tensor ℚ := Tensor.ofData ⟨xs, [xs.length]⟩

/-- The tensor `[1, 2]` whose gradient slot holds `[10, 20]`. -/
def withGrad : Tensor ℚ := .mk ⟨[1, 2], [2]⟩ (some (vec [10, 20])) History.leaf

/-- One-dimensional real tensor built directly from its entries. -/
def rvec (xs : List ℝ) : Tensor ℝ := Tensor.ofData ⟨xs, [xs.length]⟩

/-- The 2 x 2 rational tensor with entries 1, 2, 3, 4: not a scalar. -/
def mat22 : Tensor ℚ := Tensor.ofData ⟨[1, 2, 3, 4], [2, 2]⟩

/-- An engine that does nothing but report the call it received: the root, the
gradient and the heap it was handed. -/
def record_call (root : Ptr) (deriv : Tensor α) (heap : Heap α) :
    List (Ptr × Tensor α × Heap α) :=
  [(root, deriv, heap)]

/-- The leaf `[2]` with a zero gradient slot. -/
def leaf2 : Tensor ℚ := .mk ⟨[2], [1]⟩ (some (Tensor.zeros [1])) History.leaf

/-! ## Reading back what forward saved -/

theorem saved_after_save_one (x : Tensor α) :
    ((Context.fresh : Context α).save_for_backwards [x]).saved_values = [x] := rfl

theorem saved_after_save_two (x y : Tensor α) :
    ((Context.fresh : Context α).save_for_backwards [x, y]).saved_values = [x, y] := rfl

theorem zip_storage (f : α → α → α) (a b : Tensor α) :
    (Tensor.zip f a b).data.storage = List.zipWith f a.data.storage b.data.storage := rfl

theorem zip_shape (f : α → α → α) (a b : Tensor α) :
    (Tensor.zip f a b).shape = a.shape := rfl

theorem map_storage (f : α → α) (a : Tensor α) :
    (Tensor.map f a).data.storage = a.data.storage.map f := rfl

theorem map_shape (f : α → α) (a : Tensor α) :
    (Tensor.map f a).shape = a.shape := rfl

theorem zeros_storage [Zero α] (s : Shape) :
    (Tensor.zeros s : Tensor α).data.storage = List.replicate s.prod 0 := rfl

theorem zeros_shape [Zero α] (s : Shape) : (Tensor.zeros s : Tensor α).shape = s := rfl

theorem zeros_all_zero [Zero α] (s : Shape) :
    ∀ v ∈ (Tensor.zeros s : Tensor α).data.storage, v = 0 := by
  intro v hv
  rw [zeros_storage] at hv
  exact List.eq_of_mem_replicate hv

theorem zipWith_getElem?_some {β γ : Type} (f : α → β → γ) (as : List α) (bs : List β)
    (i : Nat) (a : α) (b : β) (ha : as[i]? = some a) (hb : bs[i]? = some b) :
    (List.zipWith f as bs)[i]? = some (f a b) := by
  rw [List.getElem?_zipWith, ha, hb]

theorem map_getElem?_some {β : Type} (f : α → β) (as : List α) (i : Nat) (a : α)
    (ha : as[i]? = some a) : (as.map f)[i]? = some (f a) := by
  rw [List.getElem?_map, ha]; rfl

/-- Derivative of the logistic function, in the form the source computes it. -/
theorem hasDerivAt_logistic (x : ℝ) :
    HasDerivAt (fun v : ℝ => 1 / (1 + Real.exp (-v)))
      (Real.exp (-x) * ((1 / (1 + Real.exp (-x))) * (1 / (1 + Real.exp (-x))))) x := by
  have hpos : (1 + Real.exp (-x)) ≠ 0 := by positivity
  have h1 : HasDerivAt (fun v : ℝ => 1 + Real.exp (-v)) (-Real.exp (-x)) x := by
    have := ((hasDerivAt_neg x).exp).const_add 1
    simpa using this
  have h2 := h1.inv hpos
  have h3 : (fun v : ℝ => 1 / (1 + Real.exp (-v))) = (fun v : ℝ => (1 + Real.exp (-v))⁻¹) := by
    funext v; rw [one_div]
  rw [h3]
  convert h2 using 1
  field_simp
  ring

/-- Derivative of the reciprocal, in the form of the `inv_backward` kernel. -/
theorem hasDerivAt_reciprocal (x : ℝ) (hx : x ≠ 0) :
    HasDerivAt (fun v : ℝ => 1 / v) (-(1 / x ^ 2)) x := by
  have h := hasDerivAt_inv hx
  have h3 : (fun v : ℝ => 1 / v) = (fun v : ℝ => v⁻¹) := by
    funext v; rw [one_div]
  rw [h3, one_div]
  exact h

theorem zipWith_swap_right (f : α → α → α) (hc : ∀ a b, f a b = f b a)
    (ha : ∀ a b c, f (f a b) c = f a (f b c)) (g d1 d2 : List α) :
    List.zipWith f (List.zipWith f g d1) d2 = List.zipWith f (List.zipWith f g d2) d1 := by
  induction g generalizing d1 d2 with
  | nil => simp
  | cons x g ih =>
    cases d1 with
    | nil => cases d2 <;> simp
    | cons y d1 =>
      cases d2 with
      | nil => simp
      | cons z d2 =>
        simp only [List.zipWith_cons_cons, List.cons.injEq]
        exact ⟨by rw [ha, hc y z, ← ha], ih d1 d2⟩

theorem zipWith_assoc (f : α → α → α)
    (ha : ∀ a b c, f (f a b) c = f a (f b c)) (g d1 d2 : List α) :
    List.zipWith f (List.zipWith f g d1) d2 = List.zipWith f g (List.zipWith f d1 d2) := by
  induction g generalizing d1 d2 with
  | nil => simp
  | cons x g ih =>
    cases d1 with
    | nil => cases d2 <;> simp
    | cons y d1 =>
      cases d2 with
      | nil => simp
      | cons z d2 =>
        simp only [List.zipWith_cons_cons, List.cons.injEq]
        exact ⟨ha x y z, ih d1 d2⟩

theorem accumulate_grad_of_grad (B : TensorBackend α) (t g delta : Tensor α)
    (hg : t.grad = some g) :
    t.accumulate_grad B delta = some (.mk t.data (some (B.add_zip g delta)) t.history) := by
  cases t with
  | mk data gr h =>
    cases gr with
    | none => cases hg
    | some g0 =>
      have : g0 = g := Option.some.inj hg
      subst this
      rfl

theorem backpropagate_leaf_root [Zero α] (B : TensorBackend α) (t g deriv : Tensor α)
    (hleaf : t.is_leaf = true) (hg : t.grad = some g) :
    backpropagate B 0 deriv [t]
      = some ([.mk t.data (some (B.add_zip g deriv)) t.history], []) := by
  cases t with
  | mk data gr h =>
    cases gr with
    | none => cases hg
    | some g0 =>
      have hgg : g0 = g := Option.some.inj hg
      subst hgg
      cases h with
      | mk c b inputs =>
        have hin : inputs = [] := by
          cases inputs with
          | nil => rfl
          | cons p ps => cases hleaf
        subst hin
        rfl

theorem backpropagate_diamond [Zero α] (B : TensorBackend α) (x g deriv : Tensor α)
    (hleaf : x.is_leaf = true) (hg : x.grad = some g) :
    ∃ y, Mul.apply B [x] 0 0 = some ([x, y], 1)
      ∧ y.data = (B.mul_zip x x).data
      ∧ y.parents = [0, 0]
      ∧ backpropagate B 1 deriv [x, y]
        = some ([Tensor.mk x.data
                  (some (B.add_zip g (B.add_zip (B.mul_zip x deriv) (B.mul_zip x deriv))))
                  x.history, y],
                [(1, OpId.Mul)]) := by
  cases x with
  | mk data gr h =>
    cases gr with
    | none => cases hg
    | some g0 =>
      have hgg : g0 = g := Option.some.inj hg
      subst hgg
      cases h with
      | mk c b inputs =>
        have hin : inputs = [] := by
          cases inputs with
          | nil => rfl
          | cons p ps => cases hleaf
        subst hin
        exact ⟨_, rfl, rfl, rfl, rfl⟩

theorem map_zipWith_add [Add α] (f : α → α) (hf : ∀ a b, f (a + b) = f a + f b)
    (l1 l2 : List α) :
    List.map f (List.zipWith (fun a b => a + b) l1 l2)
      = List.zipWith (fun a b => a + b) (List.map f l1) (List.map f l2) := by
  induction l1 generalizing l2 with
  | nil => simp
  | cons a l1 ih =>
    cases l2 with
    | nil => simp
    | cons b l2 =>
      simp only [List.zipWith_cons_cons, List.map_cons, List.cons.injEq]
      exact ⟨hf a b, ih l2⟩

theorem zipWith_right_add [Add α] (f : α → α → α)
    (hf : ∀ x a b, f x (a + b) = f x a + f x b) (xs l1 l2 : List α) :
    List.zipWith f xs (List.zipWith (fun a b => a + b) l1 l2)
      = List.zipWith (fun a b => a + b) (List.zipWith f xs l1) (List.zipWith f xs l2) := by
  induction xs generalizing l1 l2 with
  | nil => simp
  | cons x xs ih =>
    cases l1 with
    | nil => simp
    | cons a l1 =>
      cases l2 with
      | nil => simp
      | cons b l2 =>
        simp only [List.zipWith_cons_cons, List.cons.injEq]
        exact ⟨hf x a b, ih l1 l2⟩

theorem zipWith_left_add [Add α] (f : α → α → α)
    (hf : ∀ a b c, f (a + b) c = f a c + f b c) (l1 l2 cs : List α) :
    List.zipWith f (List.zipWith (fun a b => a + b) l1 l2) cs
      = List.zipWith (fun a b => a + b) (List.zipWith f l1 cs) (List.zipWith f l2 cs) := by
  induction cs generalizing l1 l2 with
  | nil => simp
  | cons c cs ih =>
    cases l1 with
    | nil => simp
    | cons a l1 =>
      cases l2 with
      | nil => simp
      | cons b l2 =>
        simp only [List.zipWith_cons_cons, List.cons.injEq]
        exact ⟨hf a b c, ih l1 l2⟩

theorem zipWith_add_replicate_zero [AddZeroClass α] (n : Nat) :
    List.zipWith (fun a b : α => a + b) (List.replicate n 0) (List.replicate n 0)
      = List.replicate n 0 := by
  induction n with
  | zero => rfl
  | succ n ih =>
    simp only [List.replicate_succ, List.zipWith_cons_cons, List.cons.injEq]
    exact ⟨add_zero 0, ih⟩

theorem ofData_congr (s1 s2 : List α) (sh : Shape) (h : s1 = s2) :
    Tensor.ofData ⟨s1, sh⟩ = Tensor.ofData ⟨s2, sh⟩ := by rw [h]

/-! ## Operator gradients -/

/-- C1: after `Mul::forward(ctx, a, b)` on a fresh context, `Mul::backward(ctx, d_out)`
returns the pair whose first slot is the backend product of `b` and `d_out` and
whose second slot is the backend product of `a` and `d_out`: the saved values
are read back in the order they were saved. With the element-wise backend the
two slots hold, position by position, `b * d_out` and `a * d_out`. -/
theorem Mul_backward_grads (B : TensorBackend α) (ops : ScalarOps α) (a b d_out : Tensor α) :
    Mul.backward B (Mul.forward B Context.fresh a b).1 d_out
        = some (B.mul_zip b d_out, B.mul_zip a d_out)
    ∧ ∃ ga gb,
        Mul.backward (elementwise ops) (Mul.forward (elementwise ops) Context.fresh a b).1 d_out
          = some (ga, gb)
        ∧ ga.data.storage = List.zipWith ops.mul b.data.storage d_out.data.storage
        ∧ ga.shape = b.shape
        ∧ gb.data.storage = List.zipWith ops.mul a.data.storage d_out.data.storage
        ∧ gb.shape = a.shape :=
  ⟨rfl, _, _, rfl, rfl, rfl, rfl, rfl⟩

/-- C2: for every context and every upstream gradient `d_out`, `Add::backward`
returns two slots that both equal `d_out`, whatever the context holds and
whatever inputs forward was run on. -/
theorem Add_backward_passes_gradient (B : TensorBackend α) (ctx : Context α)
    (a b d_out : Tensor α) :
    Add.backward ctx d_out = (d_out, d_out)
    ∧ Add.backward (Add.forward B ctx a b).1 d_out = (d_out, d_out) :=
  ⟨rfl, rfl⟩

/-- C3: for every context and every upstream gradient `d_out`, both slots of
`Lt::backward` and of `Eq::backward` have the shape of `d_out` and hold only
zeros (one zero per position of that shape). -/
theorem Lt_Eq_backward_zero [Zero α] (ctx : Context α) (d_out : Tensor α) :
    IsZeroOfShape (Lt.backward ctx d_out).1 d_out.shape
    ∧ IsZeroOfShape (Lt.backward ctx d_out).2 d_out.shape
    ∧ IsZeroOfShape (Eq.backward ctx d_out).1 d_out.shape
    ∧ IsZeroOfShape (Eq.backward ctx d_out).2 d_out.shape := by
  have hz : IsZeroOfShape (Tensor.zeros d_out.shape : Tensor α) d_out.shape := by
    refine ⟨zeros_shape _, ?_, zeros_all_zero _⟩
    rw [zeros_storage, List.length_replicate]
  exact ⟨hz, hz, hz, hz⟩

/-- C4: after `Sigmoid::forward(ctx, x)` on a fresh context, the first slot of
`Sigmoid::backward(ctx, d_out)` is the backend product of `d_out` with the
product of `exp(neg x)` and `sigmoid x * sigmoid x`. With the element-wise
backend, the slot holds at each position `d * (exp (-x) * (sigmoid x * sigmoid x))`
computed with the backend kernels. -/
theorem Sigmoid_backward_formula (B : TensorBackend α) (ops : ScalarOps α) (x d_out : Tensor α) :
    (Sigmoid.backward B (Sigmoid.forward B Context.fresh x).1 d_out).map Prod.fst
        = some (B.mul_zip d_out
            (B.mul_zip (B.exp_map (B.neg_map x)) (B.mul_zip (B.sigmoid_map x) (B.sigmoid_map x))))
    ∧ ∃ g,
        (Sigmoid.backward (elementwise ops)
            (Sigmoid.forward (elementwise ops) Context.fresh x).1 d_out).map Prod.fst = some g
        ∧ g.shape = d_out.shape
        ∧ g.data.storage = List.zipWith
            (fun d v => ops.mul d (ops.mul (ops.exp (ops.neg v)) (ops.mul (ops.sigmoid v) (ops.sigmoid v))))
            d_out.data.storage x.data.storage := by
  refine ⟨rfl, _, rfl, rfl, ?_⟩
  show List.zipWith ops.mul d_out.data.storage
      (List.zipWith ops.mul (List.map ops.exp (List.map ops.neg x.data.storage))
        (List.zipWith ops.mul (List.map ops.sigmoid x.data.storage)
          (List.map ops.sigmoid x.data.storage))) = _
  generalize d_out.data.storage = ds
  generalize x.data.storage = xs
  induction ds generalizing xs with
  | nil => simp
  | cons d ds ih =>
    cases xs with
    | nil => simp
    | cons v vs =>
      simp only [List.map_cons, List.zipWith_cons_cons, List.cons.injEq, true_and]
      exact ih vs

/-- C5: over the reals, with the backend the element-wise lifting of the exact
kernels, for each of Neg, Inv, Sigmoid, Log, Exp and Copy: forward computes the
scalar function `f` element by element, and forward on a fresh context followed
by backward with `d` yields a first slot holding `d * f'(x)` at every position
where `x` is in the domain of `f` (`x ≠ 0` for Inv, `0 < x` for Log), `f'` being
the derivative of `f`. -/
theorem unary_backward_is_derivative (is_close : ℝ → ℝ → ℝ) (E : TensorBackend ℝ)
    (hE : E = elementwise (exactOps Real.exp Real.log is_close)) (x d : Tensor ℝ)
    (hlen : x.data.storage.length = d.data.storage.length) :
    IsGradientOf (fun v => -v) (fun _ => True) x d
        (Neg.forward E Context.fresh x).2
        (some (Neg.backward E (Neg.forward E Context.fresh x).1 d).1)
    ∧ IsGradientOf (fun v => 1 / v) (fun v => v ≠ 0) x d
        (Inv.forward E Context.fresh x).2
        ((Inv.backward E (Inv.forward E Context.fresh x).1 d).map Prod.fst)
    ∧ IsGradientOf (fun v => 1 / (1 + Real.exp (-v))) (fun _ => True) x d
        (Sigmoid.forward E Context.fresh x).2
        ((Sigmoid.backward E (Sigmoid.forward E Context.fresh x).1 d).map Prod.fst)
    ∧ IsGradientOf Real.log (fun v => 0 < v) x d
        (Log.forward E Context.fresh x).2
        ((Log.backward E (Log.forward E Context.fresh x).1 d).map Prod.fst)
    ∧ IsGradientOf Real.exp (fun _ => True) x d
        (Exp.forward E Context.fresh x).2
        ((Exp.backward E (Exp.forward E Context.fresh x).1 d).map Prod.fst)
    ∧ IsGradientOf (fun v => v) (fun _ => True) x d
        (Copy.forward E Context.fresh x).2
        (some (Copy.backward (Copy.forward E Context.fresh x).1 d).1) := by
  subst hE
  refine ⟨?_, ?_, ?_, ?_, ?_, ?_⟩
  · refine ⟨rfl, _, rfl, ?_, ?_⟩
    · show (List.map _ d.data.storage).length = _
      rw [List.length_map]
    · intro i xi di _ hd _
      refine ⟨-1, hasDerivAt_neg xi, ?_⟩
      show (List.map (fun a : ℝ => -a) d.data.storage)[i]? = _
      rw [map_getElem?_some _ _ i di hd, mul_neg_one]
  · refine ⟨rfl, _, rfl, ?_, ?_⟩
    · show (List.zipWith _ x.data.storage d.data.storage).length = _
      rw [List.length_zipWith, hlen, min_self]
    · intro i xi di hx hd hdom
      refine ⟨-(1 / xi ^ 2), hasDerivAt_reciprocal xi hdom, ?_⟩
      show (List.zipWith (fun a b : ℝ => -(1 / a ^ 2) * b) x.data.storage d.data.storage)[i]? = _
      rw [zipWith_getElem?_some _ _ _ i xi di hx hd, mul_comm]
  · refine ⟨rfl, _, rfl, ?_, ?_⟩
    · show (List.zipWith _ d.data.storage
        (List.zipWith _ (List.map _ (List.map _ x.data.storage))
          (List.zipWith _ (List.map _ x.data.storage) (List.map _ x.data.storage)))).length = _
      simp [hlen]
    · intro i xi di hx hd _
      refine ⟨_, hasDerivAt_logistic xi, ?_⟩
      show (List.zipWith (fun a b : ℝ => a * b) d.data.storage
        (List.zipWith (fun a b : ℝ => a * b)
          (List.map Real.exp (List.map (fun a : ℝ => -a) x.data.storage))
          (List.zipWith (fun a b : ℝ => a * b)
            (List.map (fun a : ℝ => 1 / (1 + Real.exp (-a))) x.data.storage)
            (List.map (fun a : ℝ => 1 / (1 + Real.exp (-a))) x.data.storage))))[i]? = _
      have hs := map_getElem?_some (fun a : ℝ => 1 / (1 + Real.exp (-a))) _ i xi hx
      have he := map_getElem?_some Real.exp _ i _
        (map_getElem?_some (fun a : ℝ => -a) _ i xi hx)
      rw [zipWith_getElem?_some _ _ _ i _ _ hd
        (zipWith_getElem?_some _ _ _ i _ _ he (zipWith_getElem?_some _ _ _ i _ _ hs hs))]
  · refine ⟨rfl, _, rfl, ?_, ?_⟩
    · show (List.zipWith _ x.data.storage d.data.storage).length = _
      rw [List.length_zipWith, hlen, min_self]
    · intro i xi di hx hd hdom
      refine ⟨xi⁻¹, Real.hasDerivAt_log (ne_of_gt hdom), ?_⟩
      show (List.zipWith (fun a b : ℝ => b / a) x.data.storage d.data.storage)[i]? = _
      rw [zipWith_getElem?_some _ _ _ i xi di hx hd, div_eq_mul_inv]
  · refine ⟨rfl, _, rfl, ?_, ?_⟩
    · show (List.zipWith _ d.data.storage (List.map _ x.data.storage)).length = _
      rw [List.length_zipWith, List.length_map, hlen, min_self]
    · intro i xi di hx hd _
      refine ⟨Real.exp xi, Real.hasDerivAt_exp xi, ?_⟩
      show (List.zipWith (fun a b : ℝ => a * b) d.data.storage
        (List.map Real.exp x.data.storage))[i]? = _
      rw [zipWith_getElem?_some _ _ _ i di _ hd (map_getElem?_some Real.exp _ i xi hx)]
  · refine ⟨rfl, _, rfl, rfl, ?_⟩
    intro i xi di _ hd _
    refine ⟨1, hasDerivAt_id xi, ?_⟩
    show d.data.storage[i]? = _
    rw [hd, mul_one]

/-- Instance for Log at `x = [1, 3]` and `d = [2, 5]` over the reals. -/
theorem unary_backward_is_derivative_witness :
    (elementwise (exactOps Real.exp Real.log (fun _ _ => 0)) : TensorBackend ℝ)
        = elementwise (exactOps Real.exp Real.log (fun _ _ => 0))
    ∧ (rvec [1, 3]).data.storage.length = (rvec [2, 5]).data.storage.length
    ∧ IsGradientOf Real.log (fun v => 0 < v) (rvec [1, 3]) (rvec [2, 5])
        (Log.forward (elementwise (exactOps Real.exp Real.log (fun _ _ => 0)))
          Context.fresh (rvec [1, 3])).2
        ((Log.backward (elementwise (exactOps Real.exp Real.log (fun _ _ => 0)))
          (Log.forward (elementwise (exactOps Real.exp Real.log (fun _ _ => 0)))
            Context.fresh (rvec [1, 3])).1 (rvec [2, 5])).map Prod.fst) :=
  ⟨rfl, rfl,
    (unary_backward_is_derivative (fun _ _ => 0) _ rfl (rvec [1, 3]) (rvec [2, 5]) rfl).2.2.2.1⟩

/-- C6: after `Relu::forward(ctx, x)` on a fresh context, the first slot of
`Relu::backward(ctx, d_out)` is `relu_back_zip(x, d_out)`: the saved input is
the mask argument and `d_out` the gradient argument. With the element-wise
backend over the exact kernels, the slot is zero at every position where `x` is
negative and equals `d_out` at every position where `x` is positive. -/
theorem Relu_backward_masks [LinearOrderedField α] (B : TensorBackend α)
    (exp log : α → α) (is_close : α → α → α) (x d_out : Tensor α) :
    (Relu.backward B (Relu.forward B Context.fresh x).1 d_out).map Prod.fst
        = some (B.relu_back_zip x d_out)
    ∧ ∃ g,
        (Relu.backward (elementwise (exactOps exp log is_close))
          (Relu.forward (elementwise (exactOps exp log is_close)) Context.fresh x).1
          d_out).map Prod.fst = some g
        ∧ g.shape = x.shape
        ∧ g.data.storage.length = min x.data.storage.length d_out.data.storage.length
        ∧ ∀ (i : Nat) (xi di : α),
            x.data.storage[i]? = some xi → d_out.data.storage[i]? = some di →
              (xi < 0 → g.data.storage[i]? = some 0)
              ∧ (0 < xi → g.data.storage[i]? = some di) := by
  refine ⟨rfl, _, rfl, rfl, ?_, ?_⟩
  · show (List.zipWith _ x.data.storage d_out.data.storage).length = _
    rw [List.length_zipWith]
  · intro i xi di hx hd
    have h : (List.zipWith (fun a b : α => if 0 < a then b else 0)
        x.data.storage d_out.data.storage)[i]? = some (if 0 < xi then di else 0) :=
      zipWith_getElem?_some _ _ _ i xi di hx hd
    constructor
    · intro hneg
      show (List.zipWith (fun a b : α => if 0 < a then b else 0)
        x.data.storage d_out.data.storage)[i]? = _
      rw [h, if_neg (not_lt.mpr (le_of_lt hneg))]
    · intro hpos
      show (List.zipWith (fun a b : α => if 0 < a then b else 0)
        x.data.storage d_out.data.storage)[i]? = _
      rw [h, if_pos hpos]

/-- Instance at `x = [-3, 2]` and `d_out = [5, 7]`: the gradient is `[0, 7]`. -/
theorem Relu_backward_masks_witness :
    ((Relu.backward (elementwise ratOps)
        (Relu.forward (elementwise ratOps) Context.fresh (vec [-3, 2])).1
        (vec [5, 7])).map fun p => p.1.data.storage) = some [0, 7] := by
  obtain ⟨g, hg, -, hlen, hval⟩ :=
    (Relu_backward_masks (elementwise ratOps) (fun v => v) (fun v => v) (fun _ _ => 0)
      (vec [-3, 2]) (vec [5, 7])).2
  have h0 := (hval 0 (-3) 5 rfl rfl).1 (by norm_num)
  have h1 := (hval 1 2 7 rfl rfl).2 (by norm_num)
  have hl : g.data.storage.length = 2 := hlen
  have hs : g.data.storage = [0, 7] := by
    match hgs : g.data.storage, hl with
    | [a, b], _ =>
      rw [hgs] at h0 h1
      simp only [List.getElem?_cons_zero, List.getElem?_cons_succ, Option.some.injEq] at h0 h1
      rw [h0, h1]
  have hg' : (Relu.backward (elementwise ratOps)
      (Relu.forward (elementwise ratOps) Context.fresh (vec [-3, 2])).1
      (vec [5, 7])).map Prod.fst = some g := hg
  rw [Option.map_eq_some'] at hg' ⊢
  obtain ⟨p, hp, hpg⟩ := hg'
  exact ⟨p, hp, by rw [hpg, hs]⟩

/-! ## Tensor methods -/

/-- C7: for a tensor `t` whose gradient slot holds `g`, `accumulate_grad(delta)`
leaves `t` with `grad` equal to the backend sum of `g` and `delta`, and with the
same data, shape and history; a second call with the same `delta` leaves `grad`
equal to the sum of that sum and `delta`. With the element-wise backend the new
gradient holds `g + delta` position by position, in the shape of `g`. -/
theorem accumulate_grad_adds (B : TensorBackend α) (ops : ScalarOps α)
    (t g delta : Tensor α) (hg : t.grad = some g) :
    (∃ t1, t.accumulate_grad B delta = some t1
      ∧ t1.grad = some (B.add_zip g delta)
      ∧ t1.data = t.data ∧ t1.shape = t.shape ∧ t1.history = t.history
      ∧ ∃ t2, t1.accumulate_grad B delta = some t2
        ∧ t2.grad = some (B.add_zip (B.add_zip g delta) delta)
        ∧ t2.data = t.data ∧ t2.shape = t.shape ∧ t2.history = t.history)
    ∧ ∃ t1 g1, t.accumulate_grad (elementwise ops) delta = some t1
      ∧ t1.grad = some g1
      ∧ g1.data.storage = List.zipWith ops.add g.data.storage delta.data.storage
      ∧ g1.shape = g.shape := by
  refine ⟨⟨_, accumulate_grad_of_grad B t g delta hg, rfl, rfl, rfl, rfl,
    _, accumulate_grad_of_grad B _ _ delta rfl, rfl, rfl, rfl, rfl⟩,
    _, _, accumulate_grad_of_grad _ t g delta hg, rfl, rfl, rfl⟩

/-- Instance at the tensor with gradient `[10, 20]` and `delta = [1, 2]`. -/
theorem accumulate_grad_adds_witness :
    withGrad.grad = some (vec [10, 20])
    ∧ ∃ t1 g1, withGrad.accumulate_grad (elementwise ratOps) (vec [1, 2]) = some t1
      ∧ t1.grad = some g1
      ∧ g1.data.storage
          = List.zipWith ratOps.add (vec [10, 20]).data.storage (vec [1, 2]).data.storage
      ∧ g1.shape = (vec [10, 20]).shape :=
  ⟨rfl, (accumulate_grad_adds (elementwise ratOps) ratOps withGrad (vec [10, 20])
    (vec [1, 2]) rfl).2⟩

/-- C8: with element-wise addition that is commutative and associative, for a
tensor `t` whose gradient slot holds `g`: accumulating `d1` then `d2`,
accumulating `d2` then `d1`, and accumulating once the sum of `d1` and `d2` all
succeed and leave the same tensor, whose gradient holds `g + d1 + d2` position
by position. -/
theorem accumulate_grad_order_independent (ops : ScalarOps α)
    (hc : ∀ a b, ops.add a b = ops.add b a)
    (ha : ∀ a b c, ops.add (ops.add a b) c = ops.add a (ops.add b c))
    (t g d1 d2 : Tensor α) (hg : t.grad = some g) :
    ∃ r G,
      (t.accumulate_grad (elementwise ops) d1).bind
          (fun t1 => t1.accumulate_grad (elementwise ops) d2) = some r
      ∧ (t.accumulate_grad (elementwise ops) d2).bind
          (fun t1 => t1.accumulate_grad (elementwise ops) d1) = some r
      ∧ t.accumulate_grad (elementwise ops) ((elementwise ops).add_zip d1 d2) = some r
      ∧ r.grad = some G
      ∧ G.data.storage
          = List.zipWith ops.add (List.zipWith ops.add g.data.storage d1.data.storage)
              d2.data.storage := by
  have h12 : (elementwise ops).add_zip ((elementwise ops).add_zip g d1) d2
      = (elementwise ops).add_zip ((elementwise ops).add_zip g d2) d1 := by
    show Tensor.ofData _ = Tensor.ofData _
    congr 2
    exact zipWith_swap_right ops.add hc ha _ _ _
  have h3 : (elementwise ops).add_zip ((elementwise ops).add_zip g d1) d2
      = (elementwise ops).add_zip g ((elementwise ops).add_zip d1 d2) := by
    show Tensor.ofData _ = Tensor.ofData _
    congr 2
    exact zipWith_assoc ops.add ha _ _ _
  refine ⟨.mk t.data (some ((elementwise ops).add_zip ((elementwise ops).add_zip g d1) d2))
    t.history, _, ?_, ?_, ?_, rfl, rfl⟩
  · rw [accumulate_grad_of_grad _ t g d1 hg, Option.some_bind]
    rfl
  · rw [accumulate_grad_of_grad _ t g d2 hg, Option.some_bind, h12]
    rfl
  · rw [accumulate_grad_of_grad _ t g _ hg, h3]

/-- Instance at the tensor with gradient `[10, 20]`, `d1 = [1, 2]`, `d2 = [3, 4]`. -/
theorem accumulate_grad_order_independent_witness :
    (∀ a b, ratOps.add a b = ratOps.add b a)
    ∧ (∀ a b c, ratOps.add (ratOps.add a b) c = ratOps.add a (ratOps.add b c))
    ∧ withGrad.grad = some (vec [10, 20])
    ∧ ∃ r G,
      (withGrad.accumulate_grad (elementwise ratOps) (vec [1, 2])).bind
          (fun t1 => t1.accumulate_grad (elementwise ratOps) (vec [3, 4])) = some r
      ∧ (withGrad.accumulate_grad (elementwise ratOps) (vec [3, 4])).bind
          (fun t1 => t1.accumulate_grad (elementwise ratOps) (vec [1, 2])) = some r
      ∧ withGrad.accumulate_grad (elementwise ratOps)
          ((elementwise ratOps).add_zip (vec [1, 2]) (vec [3, 4])) = some r
      ∧ r.grad = some G
      ∧ G.data.storage
          = List.zipWith ratOps.add
              (List.zipWith ratOps.add (vec [10, 20]).data.storage (vec [1, 2]).data.storage)
              (vec [3, 4]).data.storage :=
  ⟨fun a b => add_comm a b, fun a b c => add_assoc a b c, rfl,
    accumulate_grad_order_independent ratOps (fun a b => add_comm a b)
      (fun a b c => add_assoc a b c) withGrad (vec [10, 20]) (vec [1, 2]) (vec [3, 4]) rfl⟩

/-- C9: `is_leaf()` is true exactly when `parents()` is empty, `parents()` being
the parent list of the history; a tensor constructed directly from a buffer, and
in particular `Tensor::zeros(shape)` for any shape, is a leaf with no parents. -/
theorem is_leaf_iff_no_parents [Zero α] (t : Tensor α) (d : TensorData α) (s : Shape) :
    (t.is_leaf = true ↔ t.parents = [])
    ∧ t.parents = t.history.inputs
    ∧ (Tensor.ofData d).is_leaf = true ∧ (Tensor.ofData d).parents = []
    ∧ (Tensor.zeros s : Tensor α).is_leaf = true ∧ (Tensor.zeros s : Tensor α).parents = [] := by
  refine ⟨?_, rfl, rfl, rfl, rfl, rfl⟩
  unfold Tensor.is_leaf
  exact List.isEmpty_iff

/-- C10: `Tensor::zeros(s)` has shape `s` and holds only zeros, one per position
of `s`; for every tensor `t`, `t.zeros()` has the shape of `t` and holds only
zeros, one per position of that shape. The method is `const`: it is a function
of `t` that returns the new tensor and no changed `t`. -/
theorem zeros_shape_and_elements [Zero α] (s : Shape) (t : Tensor α) :
    (Tensor.zeros s : Tensor α).shape = s
    ∧ (Tensor.zeros s : Tensor α).data.storage.length = s.prod
    ∧ (∀ v ∈ (Tensor.zeros s : Tensor α).data.storage, v = 0)
    ∧ t.zeros_this.shape = t.shape
    ∧ t.zeros_this.data.storage.length = t.shape.prod
    ∧ (∀ v ∈ t.zeros_this.data.storage, v = 0) := by
  refine ⟨rfl, ?_, zeros_all_zero s, rfl, ?_, zeros_all_zero t.shape⟩
  · rw [zeros_storage, List.length_replicate]
  · show (Tensor.zeros t.shape : Tensor α).data.storage.length = _
    rw [zeros_storage, List.length_replicate]

/-! ## Shape of the backward result -/

/-- Fails C11 as stated: `Neg::backward` returns a `std::array<Tensor, 2>`, so
the gradient list of this unary operator has two entries, not one. -/
theorem Neg_backward_has_two_slots :
    (slots (Neg.backward (elementwise ratOps) Context.fresh (vec [1]))).length = 2
    ∧ ¬ (slots (Neg.backward (elementwise ratOps) Context.fresh (vec [1]))).length = 1 :=
  ⟨rfl, by decide⟩

/-- C11 (amended): every `backward` returns a fixed array of two tensors,
whatever the arity of forward. Add, Mul, Lt and Eq fill both slots; Neg, Inv,
Relu, Sigmoid, Log, Exp and Copy fill slot 0 and leave slot 1 a
value-initialised tensor. No slot is left unspecified. -/
theorem backward_returns_two_slots [Zero α] (B : TensorBackend α) (ctx : Context α)
    (x a b d_out : Tensor α) :
    slots (Add.backward ctx d_out) = [d_out, d_out]
    ∧ slots (Lt.backward ctx d_out) = [d_out.zeros_this, d_out.zeros_this]
    ∧ slots (Eq.backward ctx d_out) = [d_out.zeros_this, d_out.zeros_this]
    ∧ (Mul.backward B (Mul.forward B Context.fresh a b).1 d_out).map slots
        = some [B.mul_zip b d_out, B.mul_zip a d_out]
    ∧ slots (Neg.backward B ctx d_out) = [B.neg_map d_out, Tensor.empty]
    ∧ slots (Copy.backward ctx d_out) = [d_out, Tensor.empty]
    ∧ (Inv.backward B (Inv.forward B Context.fresh x).1 d_out).map slots
        = some [B.inv_back_zip x d_out, Tensor.empty]
    ∧ (Relu.backward B (Relu.forward B Context.fresh x).1 d_out).map slots
        = some [B.relu_back_zip x d_out, Tensor.empty]
    ∧ (Sigmoid.backward B (Sigmoid.forward B Context.fresh x).1 d_out).map
          (fun r => ((slots r).length, r.2))
        = some (2, Tensor.empty)
    ∧ (Log.backward B (Log.forward B Context.fresh x).1 d_out).map slots
        = some [B.log_back_zip x d_out, Tensor.empty]
    ∧ (Exp.backward B (Exp.forward B Context.fresh x).1 d_out).map slots
        = some [B.mul_zip d_out (B.exp_map x), Tensor.empty]
    ∧ (∀ r, r ∈ [Mul.backward B ctx d_out, Inv.backward B ctx d_out,
          Relu.backward B ctx d_out, Sigmoid.backward B ctx d_out,
          Log.backward B ctx d_out, Exp.backward B ctx d_out] →
        ∀ g, r = some g → (slots g).length = 2) :=
  ⟨rfl, rfl, rfl, rfl, rfl, rfl, rfl, rfl, rfl, rfl, rfl, fun _ _ _ _ => rfl⟩

/-! ## What forward saves and backward reads -/

/-- Fails C16 as stated: `Neg::forward` saves its input, so a fresh context is
not left empty, although `Neg::backward` reads no saved value. -/
theorem Neg_forward_saves_input :
    (Neg.forward (elementwise ratOps) Context.fresh (vec [1])).1.saved_values = [vec [1]]
    ∧ (Neg.forward (elementwise ratOps) Context.fresh (vec [1])).1.saved_values ≠ [] :=
  ⟨rfl, List.cons_ne_nil _ _⟩

/-- C16 (amended): on a fresh context, the forward of Add, Copy, Lt and Eq saves
nothing; the forward of Neg saves its input, although `Neg::backward` returns
the same result whatever the context holds; the forward of Inv, Relu, Sigmoid,
Log and Exp saves exactly its input; the forward of Mul (and of Is_close, which
has no backward) saves exactly its two inputs in argument order. -/
theorem forward_saved_values (B : TensorBackend α) (x a b d_out : Tensor α)
    (ctx1 ctx2 : Context α) :
    (Add.forward B Context.fresh a b).1.saved_values = []
    ∧ (Copy.forward B Context.fresh x).1.saved_values = []
    ∧ (Lt.forward B Context.fresh a b).1.saved_values = []
    ∧ (Eq.forward B Context.fresh a b).1.saved_values = []
    ∧ (Neg.forward B Context.fresh x).1.saved_values = [x]
    ∧ Neg.backward B ctx1 d_out = Neg.backward B ctx2 d_out
    ∧ (Inv.forward B Context.fresh x).1.saved_values = [x]
    ∧ (Relu.forward B Context.fresh x).1.saved_values = [x]
    ∧ (Sigmoid.forward B Context.fresh x).1.saved_values = [x]
    ∧ (Log.forward B Context.fresh x).1.saved_values = [x]
    ∧ (Exp.forward B Context.fresh x).1.saved_values = [x]
    ∧ (Mul.forward B Context.fresh a b).1.saved_values = [a, b]
    ∧ (Is_close.forward B Context.fresh a b).1.saved_values = [a, b] :=
  ⟨rfl, rfl, rfl, rfl, rfl, rfl, rfl, rfl, rfl, rfl, rfl, rfl, rfl⟩

/-- C17: when forward is run on a fresh context and backward on the context it
leaves, every saved value that backward looks up is there: index 0 holds the
input for Inv, Relu, Sigmoid, Log and Exp, indices 0 and 1 hold the two inputs
for Mul, and each of these backwards returns a result. The backwards of Neg,
Add, Lt, Eq and Copy look nothing up: their result is the same for every
context. -/
theorem paired_backward_finds_saved_values [Zero α] (B : TensorBackend α)
    (x a b d_out : Tensor α) (ctx1 ctx2 : Context α) :
    ((Inv.forward B Context.fresh x).1.saved_values[0]? = some x
      ∧ (Inv.backward B (Inv.forward B Context.fresh x).1 d_out).isSome = true)
    ∧ ((Relu.forward B Context.fresh x).1.saved_values[0]? = some x
      ∧ (Relu.backward B (Relu.forward B Context.fresh x).1 d_out).isSome = true)
    ∧ ((Sigmoid.forward B Context.fresh x).1.saved_values[0]? = some x
      ∧ (Sigmoid.backward B (Sigmoid.forward B Context.fresh x).1 d_out).isSome = true)
    ∧ ((Log.forward B Context.fresh x).1.saved_values[0]? = some x
      ∧ (Log.backward B (Log.forward B Context.fresh x).1 d_out).isSome = true)
    ∧ ((Exp.forward B Context.fresh x).1.saved_values[0]? = some x
      ∧ (Exp.backward B (Exp.forward B Context.fresh x).1 d_out).isSome = true)
    ∧ ((Mul.forward B Context.fresh a b).1.saved_values[0]? = some a
      ∧ (Mul.forward B Context.fresh a b).1.saved_values[1]? = some b
      ∧ (Mul.backward B (Mul.forward B Context.fresh a b).1 d_out).isSome = true)
    ∧ Neg.backward B ctx1 d_out = Neg.backward B ctx2 d_out
    ∧ Add.backward ctx1 d_out = Add.backward ctx2 d_out
    ∧ Lt.backward ctx1 d_out = Lt.backward ctx2 d_out
    ∧ Eq.backward ctx1 d_out = Eq.backward ctx2 d_out
    ∧ Copy.backward ctx1 d_out = Copy.backward ctx2 d_out :=
  ⟨⟨rfl, rfl⟩, ⟨rfl, rfl⟩, ⟨rfl, rfl⟩, ⟨rfl, rfl⟩, ⟨rfl, rfl⟩, ⟨rfl, rfl, rfl⟩,
    rfl, rfl, rfl, rfl, rfl⟩

/-! ## Seeding the backward pass -/

/-- Fails C12 as stated: on the 2 x 2 tensor, `backward()` reports nothing and
invokes the engine with the one-element seed, whose shape is not the tensor's. -/
theorem backward_seeds_non_scalar :
    mat22.shape = [2, 2]
    ∧ Tensor.backward record_call 0 [mat22] = [(0, Tensor.ofList [1], [mat22])]
    ∧ Tensor.backward record_call 0 [mat22] ≠ []
    ∧ (Tensor.ofList [(1 : ℚ)]).shape ≠ mat22.shape :=
  ⟨rfl, rfl, List.cons_ne_nil _ _, by decide⟩

/-- C12 (amended): `backward()` makes no shape check and has no error path of
its own: for every tensor and every heap, whatever the tensor's shape, its
result is the engine's result on the same one-element seed of shape `[1]`. -/
theorem backward_makes_no_shape_check [One α] {ρ : Type}
    (engine : Ptr → Tensor α → Heap α → ρ) (this : Ptr) (heap1 heap2 : Heap α) :
    Tensor.backward engine this heap1 = engine this (Tensor.ofList [1]) heap1
    ∧ (Tensor.backward record_call this heap1).map (fun c => c.2.1)
        = (Tensor.backward record_call this heap2).map (fun c => c.2.1)
    ∧ (Tensor.ofList [(1 : α)]).shape = [1] :=
  ⟨rfl, rfl, rfl⟩

/-- C13: `backward()` invokes the engine exactly once, with the root being the
tensor itself and the gradient a newly constructed leaf holding the single
value 1; the heap handed to the engine is the heap at the call, so `backward()`
itself changes no tensor. -/
theorem backward_invokes_engine_once [One α] {ρ : Type}
    (engine : Ptr → Tensor α → Heap α → ρ) (this : Ptr) (heap : Heap α) :
    Tensor.backward engine this heap = engine this (Tensor.ofList [1]) heap
    ∧ Tensor.backward record_call this heap = [(this, Tensor.ofList [1], heap)]
    ∧ (Tensor.ofList [(1 : α)]).data.storage = [1]
    ∧ (Tensor.ofList [(1 : α)]).is_leaf = true
    ∧ (Tensor.ofList [(1 : α)]).parents = [] :=
  ⟨rfl, rfl, rfl, rfl, rfl⟩

/-! ## The backward pass -/

/-- C14: for a one-element leaf `x` holding `v` with a zero gradient slot, let
`y = Mul(x, x)`; then `y.backward()` succeeds, invokes the backward of `Mul`
once, and leaves `x.grad` holding `v + v`: the gradients arriving along both
parent edges of `y` are summed into `x.grad`. The data and history of `x` are
as before. -/
theorem diamond_Mul_accumulates [LinearOrderedField α] (exp log : α → α)
    (is_close : α → α → α) (x g : Tensor α) (v : α)
    (hleaf : x.is_leaf = true) (hx : x.data.storage = [v])
    (hg : x.grad = some g) (hg0 : g.data.storage = [0]) :
    ∃ y x1 g1,
      Mul.apply (elementwise (exactOps exp log is_close)) [x] 0 0 = some ([x, y], 1)
      ∧ y.data.storage = [v * v]
      ∧ y.parents = [0, 0]
      ∧ Tensor.backward (backpropagate (elementwise (exactOps exp log is_close))) 1 [x, y]
          = some ([x1, y], [(1, OpId.Mul)])
      ∧ x1.grad = some g1
      ∧ g1.data.storage = [v + v]
      ∧ x1.data = x.data ∧ x1.history = x.history := by
  obtain ⟨y, hy, hyd, hyp, hb⟩ :=
    backpropagate_diamond (elementwise (exactOps exp log is_close)) x g (Tensor.ofList [1])
      hleaf hg
  refine ⟨y, _, _, hy, ?_, hyp, hb, rfl, ?_, rfl, rfl⟩
  · rw [hyd]
    show List.zipWith (fun a b : α => a * b) x.data.storage x.data.storage = _
    rw [hx]
    rfl
  · show List.zipWith (fun a b : α => a + b) g.data.storage
        (List.zipWith (fun a b : α => a + b)
          (List.zipWith (fun a b : α => a * b) x.data.storage [1])
          (List.zipWith (fun a b : α => a * b) x.data.storage [1])) = _
    rw [hx, hg0]
    simp

/-- Instance at `x = [2]`: after `y = Mul(x, x)` and `y.backward()`, `x.grad` is
`[2 + 2]`. -/
theorem diamond_Mul_accumulates_witness :
    leaf2.is_leaf = true ∧ leaf2.data.storage = [2]
    ∧ leaf2.grad = some (Tensor.zeros [1]) ∧ (Tensor.zeros [1] : Tensor ℚ).data.storage = [0]
    ∧ ∃ y x1 g1,
      Mul.apply (elementwise ratOps) [leaf2] 0 0 = some ([leaf2, y], 1)
      ∧ y.data.storage = [2 * 2]
      ∧ y.parents = [0, 0]
      ∧ Tensor.backward (backpropagate (elementwise ratOps)) 1 [leaf2, y]
          = some ([x1, y], [(1, OpId.Mul)])
      ∧ x1.grad = some g1
      ∧ g1.data.storage = [2 + 2]
      ∧ x1.data = leaf2.data ∧ x1.history = leaf2.history :=
  ⟨rfl, rfl, rfl, rfl,
    diamond_Mul_accumulates (fun v => v) (fun v => v) (fun _ _ => 0) leaf2 (Tensor.zeros [1]) 2
      rfl rfl rfl rfl⟩

/-- C15: for a leaf `t` whose gradient slot holds `g`, `t.backward()` succeeds,
leaves `t.grad` equal to the backend sum of `g` and the seed `[1]`, changes
nothing else of `t`, and invokes no operator's backward. With the element-wise
backend the new gradient holds `g + 1` at the one position of the seed. -/
theorem backward_on_leaf_root [Zero α] [One α] (B : TensorBackend α) (ops : ScalarOps α)
    (t g : Tensor α) (hleaf : t.is_leaf = true) (hg : t.grad = some g) :
    Tensor.backward (backpropagate B) 0 [t]
        = some ([.mk t.data (some (B.add_zip g (Tensor.ofList [1]))) t.history], [])
    ∧ ∃ t1 g1,
        Tensor.backward (backpropagate (elementwise ops)) 0 [t] = some ([t1], [])
        ∧ t1.grad = some g1
        ∧ g1.data.storage = List.zipWith ops.add g.data.storage [1]
        ∧ g1.shape = g.shape
        ∧ t1.data = t.data ∧ t1.history = t.history :=
  ⟨backpropagate_leaf_root B t g _ hleaf hg,
    _, _, backpropagate_leaf_root (elementwise ops) t g _ hleaf hg, rfl, rfl, rfl, rfl, rfl⟩

/-- Instance at the leaf `[2]` with gradient `[0]`: the gradient becomes `[0 + 1]`. -/
theorem backward_on_leaf_root_witness :
    leaf2.is_leaf = true ∧ leaf2.grad = some (Tensor.zeros [1])
    ∧ ∃ t1 g1,
        Tensor.backward (backpropagate (elementwise ratOps)) 0 [leaf2] = some ([t1], [])
        ∧ t1.grad = some g1
        ∧ g1.data.storage = List.zipWith ratOps.add (Tensor.zeros [1] : Tensor ℚ).data.storage [1]
        ∧ g1.shape = (Tensor.zeros [1] : Tensor ℚ).shape
        ∧ t1.data = leaf2.data ∧ t1.history = leaf2.history :=
  ⟨rfl, rfl,
    (backward_on_leaf_root (elementwise ratOps) ratOps leaf2 (Tensor.zeros [1]) rfl rfl).2⟩

/-! ## Additivity in the upstream gradient -/

/-- C18: with the element-wise backend over the exact kernels, every operator's
backward is additive in the upstream gradient: for same-shaped `d1` and `d2` and
the context left by forward on a fresh context, each meaningful slot of
`backward(ctx, d1 + d2)` is the element-wise sum of that slot of
`backward(ctx, d1)` and of `backward(ctx, d2)` (slot 0 for the unary operators,
both slots for Add, Mul, Lt and Eq). -/
theorem backward_additive [LinearOrderedField α] (exp log : α → α) (is_close : α → α → α)
    (E : TensorBackend α) (hE : E = elementwise (exactOps exp log is_close))
    (x a b d1 d2 : Tensor α) (hshape : d1.shape = d2.shape) :
    ((Add.backward (Add.forward E Context.fresh a b).1 (E.add_zip d1 d2)).1
        = E.add_zip (Add.backward (Add.forward E Context.fresh a b).1 d1).1
            (Add.backward (Add.forward E Context.fresh a b).1 d2).1
      ∧ (Add.backward (Add.forward E Context.fresh a b).1 (E.add_zip d1 d2)).2
        = E.add_zip (Add.backward (Add.forward E Context.fresh a b).1 d1).2
            (Add.backward (Add.forward E Context.fresh a b).1 d2).2)
    ∧ (Neg.backward E (Neg.forward E Context.fresh x).1 (E.add_zip d1 d2)).1
        = E.add_zip (Neg.backward E (Neg.forward E Context.fresh x).1 d1).1
            (Neg.backward E (Neg.forward E Context.fresh x).1 d2).1
    ∧ IsSlotSum E Prod.fst
        (Inv.backward E (Inv.forward E Context.fresh x).1 (E.add_zip d1 d2))
        (Inv.backward E (Inv.forward E Context.fresh x).1 d1)
        (Inv.backward E (Inv.forward E Context.fresh x).1 d2)
    ∧ IsSlotSum E Prod.fst
        (Relu.backward E (Relu.forward E Context.fresh x).1 (E.add_zip d1 d2))
        (Relu.backward E (Relu.forward E Context.fresh x).1 d1)
        (Relu.backward E (Relu.forward E Context.fresh x).1 d2)
    ∧ IsSlotSum E Prod.fst
        (Sigmoid.backward E (Sigmoid.forward E Context.fresh x).1 (E.add_zip d1 d2))
        (Sigmoid.backward E (Sigmoid.forward E Context.fresh x).1 d1)
        (Sigmoid.backward E (Sigmoid.forward E Context.fresh x).1 d2)
    ∧ IsSlotSum E Prod.fst
        (Log.backward E (Log.forward E Context.fresh x).1 (E.add_zip d1 d2))
        (Log.backward E (Log.forward E Context.fresh x).1 d1)
        (Log.backward E (Log.forward E Context.fresh x).1 d2)
    ∧ IsSlotSum E Prod.fst
        (Exp.backward E (Exp.forward E Context.fresh x).1 (E.add_zip d1 d2))
        (Exp.backward E (Exp.forward E Context.fresh x).1 d1)
        (Exp.backward E (Exp.forward E Context.fresh x).1 d2)
    ∧ (IsSlotSum E Prod.fst
        (Mul.backward E (Mul.forward E Context.fresh a b).1 (E.add_zip d1 d2))
        (Mul.backward E (Mul.forward E Context.fresh a b).1 d1)
        (Mul.backward E (Mul.forward E Context.fresh a b).1 d2)
      ∧ IsSlotSum E Prod.snd
        (Mul.backward E (Mul.forward E Context.fresh a b).1 (E.add_zip d1 d2))
        (Mul.backward E (Mul.forward E Context.fresh a b).1 d1)
        (Mul.backward E (Mul.forward E Context.fresh a b).1 d2))
    ∧ ((Lt.backward (Lt.forward E Context.fresh a b).1 (E.add_zip d1 d2)).1
        = E.add_zip (Lt.backward (Lt.forward E Context.fresh a b).1 d1).1
            (Lt.backward (Lt.forward E Context.fresh a b).1 d2).1
      ∧ (Lt.backward (Lt.forward E Context.fresh a b).1 (E.add_zip d1 d2)).2
        = E.add_zip (Lt.backward (Lt.forward E Context.fresh a b).1 d1).2
            (Lt.backward (Lt.forward E Context.fresh a b).1 d2).2)
    ∧ ((Eq.backward (Eq.forward E Context.fresh a b).1 (E.add_zip d1 d2)).1
        = E.add_zip (Eq.backward (Eq.forward E Context.fresh a b).1 d1).1
            (Eq.backward (Eq.forward E Context.fresh a b).1 d2).1
      ∧ (Eq.backward (Eq.forward E Context.fresh a b).1 (E.add_zip d1 d2)).2
        = E.add_zip (Eq.backward (Eq.forward E Context.fresh a b).1 d1).2
            (Eq.backward (Eq.forward E Context.fresh a b).1 d2).2)
    ∧ (Copy.backward (Copy.forward E Context.fresh x).1 (E.add_zip d1 d2)).1
        = E.add_zip (Copy.backward (Copy.forward E Context.fresh x).1 d1).1
            (Copy.backward (Copy.forward E Context.fresh x).1 d2).1 := by
  subst hE
  have hzero : (Tensor.zeros d1.shape : Tensor α)
      = Tensor.zip (fun a b : α => a + b) (Tensor.zeros d1.shape) (Tensor.zeros d2.shape) := by
    rw [← hshape]
    exact ofData_congr _ _ _ (zipWith_add_replicate_zero d1.shape.prod).symm
  refine ⟨⟨rfl, rfl⟩, ?_, ⟨_, _, _, rfl, rfl, rfl, ?_⟩, ⟨_, _, _, rfl, rfl, rfl, ?_⟩,
    ⟨_, _, _, rfl, rfl, rfl, ?_⟩, ⟨_, _, _, rfl, rfl, rfl, ?_⟩, ⟨_, _, _, rfl, rfl, rfl, ?_⟩,
    ⟨⟨_, _, _, rfl, rfl, rfl, ?_⟩, ⟨_, _, _, rfl, rfl, rfl, ?_⟩⟩,
    ⟨hzero, hzero⟩, ⟨hzero, hzero⟩, rfl⟩
  · exact ofData_congr _ _ _ (map_zipWith_add (fun a : α => -a) (fun a b => neg_add a b) _ _)
  · exact ofData_congr _ _ _
      (zipWith_right_add (fun x d : α => -(1 / x ^ 2) * d) (fun x a b => mul_add _ a b) _ _ _)
  · refine ofData_congr _ _ _
      (zipWith_right_add (fun x d : α => if 0 < x then d else 0) ?_ _ _ _)
    intro x a b
    by_cases h : 0 < x
    · simp only [if_pos h]
    · simp only [if_neg h, add_zero]
  · exact ofData_congr _ _ _
      (zipWith_left_add (fun a b : α => a * b) (fun a b c => add_mul a b c) _ _ _)
  · exact ofData_congr _ _ _
      (zipWith_right_add (fun x d : α => d / x) (fun x a b => add_div a b x) _ _ _)
  · exact ofData_congr _ _ _
      (zipWith_left_add (fun a b : α => a * b) (fun a b c => add_mul a b c) _ _ _)
  · exact ofData_congr _ _ _
      (zipWith_right_add (fun a b : α => a * b) (fun x a b => mul_add x a b) _ _ _)
  · exact ofData_congr _ _ _
      (zipWith_right_add (fun a b : α => a * b) (fun x a b => mul_add x a b) _ _ _)

/-- Instance for Relu at `x = [-3, 2]`, `d1 = [5, 7]`, `d2 = [1, 1]`. -/
theorem backward_additive_witness :
    (elementwise ratOps : TensorBackend ℚ)
        = elementwise (exactOps (fun v => v) (fun v => v) (fun _ _ => 0))
    ∧ (vec [5, 7]).shape = (vec [1, 1]).shape
    ∧ IsSlotSum (elementwise ratOps) Prod.fst
        (Relu.backward (elementwise ratOps)
          (Relu.forward (elementwise ratOps) Context.fresh (vec [-3, 2])).1
          ((elementwise ratOps).add_zip (vec [5, 7]) (vec [1, 1])))
        (Relu.backward (elementwise ratOps)
          (Relu.forward (elementwise ratOps) Context.fresh (vec [-3, 2])).1 (vec [5, 7]))
        (Relu.backward (elementwise ratOps)
          (Relu.forward (elementwise ratOps) Context.fresh (vec [-3, 2])).1 (vec [1, 1])) :=
  ⟨rfl, rfl,
    (backward_additive (fun v => v) (fun v => v) (fun _ _ => 0) (elementwise ratOps) rfl
      (vec [-3, 2]) (vec [-3, 2]) (vec [-3, 2]) (vec [5, 7]) (vec [1, 1]) rfl).2.2.2.1⟩

end babytorch
